import Mathlib

/-!
Verification of the MC_Server coordination layer.

Shallow embedding of the Python sources (`admin_panel.py`, `server_helper.py`,
`tunnel_checker.py`, `github_helper.py`).  JSON object documents
(`tunnel_id_map.json`, the per-server config documents) are modelled as
association lists / a `ServerConfig` structure; external effects (DNS lookups,
process stdin writes, git subprocesses) are modelled as explicit parameters or
as traces of operations.
-/

namespace MCServer

/-! ### Association-list model of a JSON object (Python `dict`)

Python dicts preserve insertion order; `d.pop(k)` removes the unique binding of
`k`, `d[k] = v` replaces the binding in place when `k` is present and appends
otherwise.
-/

/-- Ordered lookup in an association list (Python `d[k]` / `d.get(k)`). -/
def alookup (k : String) : List (String × String) → Option String
  | [] => none
  | (k1, v) :: rest => if k = k1 then some v else alookup k rest

/-- Remove the first binding of `k` (Python `d.pop(k)` on a dict with unique keys). -/
def aerase (k : String) : List (String × String) → List (String × String)
  | [] => []
  | (k1, v) :: rest => if k1 = k then rest else (k1, v) :: aerase k rest

/-- Python `d[k] = v`: replace the binding of `k` in place, appending when absent. -/
def aset (k v : String) : List (String × String) → List (String × String)
  | [] => [(k, v)]
  | (k1, v1) :: rest => if k1 = k then (k1, v) :: rest else (k1, v1) :: aset k v rest

theorem alookup_append (k : String) (l1 l2 : List (String × String)) :
    alookup k (l1 ++ l2) = ((alookup k l1).rec (alookup k l2) (fun v => some v)) := by
  induction l1 with
  | nil => simp [alookup]
  | cons p rest ih =>
    obtain ⟨k1, v⟩ := p
    by_cases h : k = k1 <;> simp [alookup, h, ih]

theorem alookup_eq_none_of_not_mem (k : String) (l : List (String × String))
    (h : k ∉ l.map Prod.fst) : alookup k l = none := by
  induction l with
  | nil => rfl
  | cons p rest ih =>
    obtain ⟨k1, v⟩ := p
    simp only [List.map_cons, List.mem_cons] at h
    push_neg at h
    simp [alookup, h.1, ih h.2]

theorem alookup_aerase_ne (k k0 : String) (l : List (String × String)) (h : k ≠ k0) :
    alookup k (aerase k0 l) = alookup k l := by
  induction l with
  | nil => rfl
  | cons p rest ih =>
    obtain ⟨k1, v⟩ := p
    by_cases h1 : k1 = k0
    · subst h1
      simp [aerase, alookup, h]
    · by_cases h2 : k = k1 <;> simp [aerase, alookup, h1, h2, ih]

theorem alookup_aset_self (k v : String) (l : List (String × String)) :
    alookup k (aset k v l) = some v := by
  induction l with
  | nil => simp [aset, alookup]
  | cons p rest ih =>
    obtain ⟨k1, v1⟩ := p
    by_cases h : k1 = k
    · subst h
      simp [aset, alookup]
    · have h2 : k ≠ k1 := fun hk => h hk.symm
      simp [aset, alookup, h, h2, ih]

theorem alookup_aset_ne (k k0 v : String) (l : List (String × String)) (h : k ≠ k0) :
    alookup k (aset k0 v l) = alookup k l := by
  induction l with
  | nil => simp [aset, alookup, h]
  | cons p rest ih =>
    obtain ⟨k1, v1⟩ := p
    by_cases h1 : k1 = k0
    · subst h1
      simp [aset, alookup, h]
    · by_cases h2 : k = k1 <;> simp [aset, alookup, h1, h2, ih]

theorem keys_aset_of_mem (k v : String) (l : List (String × String))
    (h : k ∈ l.map Prod.fst) : (aset k v l).map Prod.fst = l.map Prod.fst := by
  induction l with
  | nil => simp at h
  | cons p rest ih =>
    obtain ⟨k1, v1⟩ := p
    by_cases h1 : k1 = k
    · simp [aset, h1]
    · simp only [List.map_cons, List.mem_cons] at h
      have hk : k ∈ rest.map Prod.fst := by
        rcases h with h | h
        · exact absurd h.symm h1
        · exact h
      simp [aset, h1, ih hk]

theorem mem_aset (k v : String) (l : List (String × String)) :
    ∀ p : String × String, p ∈ aset k v l → (p.1 = k ∧ p.2 = v) ∨ p ∈ l := by
  induction l with
  | nil =>
    intro p h
    rw [aset, List.mem_singleton] at h
    subst h
    exact Or.inl ⟨rfl, rfl⟩
  | cons q rest ih =>
    obtain ⟨k1, v1⟩ := q
    intro p h
    by_cases h1 : k1 = k
    · subst h1
      rw [aset, if_pos rfl, List.mem_cons] at h
      rcases h with h | h
      · subst h
        exact Or.inl ⟨rfl, rfl⟩
      · exact Or.inr (List.mem_cons_of_mem _ h)
    · rw [aset, if_neg h1, List.mem_cons] at h
      rcases h with h | h
      · exact Or.inr (by rw [h]; exact List.mem_cons_self _ _)
      · rcases ih p h with h2 | h2
        · exact Or.inl h2
        · exact Or.inr (List.mem_cons_of_mem _ h2)

/-! ### ServerRecord documents (`server_configs/<id>.json`) -/

/-- The mutable fields of a per-server config document that the verified
operations read and write (`server_helper.py`, `admin_panel.py`). -/
structure ServerConfig where
  pending_command : String := ""
  last_command_response : String := ""
  is_active : Bool := false
  shutdown_request : Bool := false
  last_started : Option Nat := none
  last_stopped : Option Nat := none
deriving DecidableEq

/-! ### `server_helper.process_pending_command`

The worker reads the config; when `pending_command` is non-empty it builds the
line to write to the managed process's stdin (prepending `/` unless the command
already starts with `/` or equals `stop`), writes it, and only after a
successful write records `last_command_response`, clears `pending_command` and
persists.  The stdin write is external and may raise: it is modelled by the
`sendOk` flag.  The result records the persisted config, the list of lines
written to stdin, and the function's boolean return value.
-/

structure CmdStepResult where
  config : ServerConfig
  sent : List String
  ok : Bool
deriving DecidableEq

def process_pending_command (sendOk : Bool) (c : ServerConfig) : CmdStepResult :=
  if c.pending_command = "" then
    ⟨c, [], true⟩
  else
    let command_to_send :=
      if !(c.pending_command.startsWith "/") && !(c.pending_command == "stop") then
        "/" ++ c.pending_command ++ "\n"
      else
        c.pending_command ++ "\n"
    if sendOk then
      ⟨{ c with
          last_command_response := "Sent: " ++ c.pending_command,
          pending_command := "" },
        [command_to_send], true⟩
    else
      ⟨c, [], false⟩

/-! ### `server_helper.write_status_file`, `ensure_server_inactive`,
`set_server_inactive_on_exit`

`ensure_server_inactive` re-reads the config, forces `is_active := false`
(stamping `last_stopped`) when still active, resets `shutdown_request`, and
writes the document back only when one of the two fields actually changed.  The
returned flag is `need_update`, i.e. whether a write/commit happened.
`set_server_inactive_on_exit` is the `atexit` finalizer: it always writes the
inactive status first and then runs `ensure_server_inactive`.
-/

def write_status_file (now : Nat) (running : Bool) (c : ServerConfig) : ServerConfig :=
  if running then
    { c with is_active := true, last_started := some now }
  else
    { c with is_active := false, last_stopped := some now }

def ensure_server_inactive (now : Nat) (c : ServerConfig) : ServerConfig × Bool :=
  let s1 :=
    if c.is_active then
      ({ c with is_active := false, last_stopped := some now }, true)
    else
      (c, false)
  let s2 :=
    if s1.1.shutdown_request then
      ({ s1.1 with shutdown_request := false }, true)
    else
      (s1.1, false)
  (s2.1, s1.2 || s2.2)

def set_server_inactive_on_exit (now : Nat) (c : ServerConfig) : ServerConfig × Bool :=
  ensure_server_inactive now (write_status_file now false c)

/-! ### `github_helper.commit_and_push` (State Store Client write path)

Every `os.system` call of `commit_and_push` is recorded as one `GitOp`; the
Python function never inspects any of their exit codes, so the emitted
operation trace cannot depend on whether the push is rejected.  The unused
`pushRejected` parameter stands for the external outcome of the push. -/

inductive GitOp
  | configName
  | configEmail
  | add (file : String)
  | commit (msg : String)
  | pullRebase
  | push
deriving DecidableEq

def commit_and_push (_pushRejected : Bool) (files : List String) (msg : String) :
    List GitOp :=
  [GitOp.configName, GitOp.configEmail] ++ files.map GitOp.add ++
    [GitOp.commit msg, GitOp.pullRebase, GitOp.push]

/-! ### `admin_panel.send_command` route (Control-Plane Facade)

The route strips the submitted command; an empty result is rejected with an
error flash and nothing is written; otherwise `pending_command` is assigned and
the config persisted.  Python's `str.strip()` is modelled by `pyStrip`. -/

def pyStrip (s : String) : String :=
  String.mk (((s.toList.dropWhile Char.isWhitespace).reverse.dropWhile
    Char.isWhitespace).reverse)

inductive SendCommandResult
  | rejected (message : String)
  | accepted (newConfig : ServerConfig)
deriving DecidableEq

def send_command (command : String) (c : ServerConfig) : SendCommandResult :=
  let cmd := pyStrip command
  if cmd = "" then
    SendCommandResult.rejected "No command entered."
  else
    SendCommandResult.accepted { c with pending_command := cmd }

/-! ### `tunnel_checker.validate_tunnels` (Reconciler, `auto_fix` path)

For each map entry the DNS registry is asked for the tunnel id the fqdn
resolves to (the `dns` oracle parameter; `none` models lookup failure, which
the code treats as a skipped entry, never a mismatch).  Entries whose map value
differs from the resolved value are collected; with auto-fix enabled (and not a
dry run) each mismatched key is overwritten in the map with the DNS value and
the map is written back.  The function returns the persisted map and the
boolean `len(mismatches) == 0`. -/

def computeMismatches (dns : String → Option String) (m : List (String × String)) :
    List (String × String × String) :=
  m.filterMap (fun p =>
    match dns p.1 with
    | none => none
    | some d => if d = p.2 then none else some (p.1, p.2, d))

def applyFixes (fixes : List (String × String × String)) (m : List (String × String)) :
    List (String × String) :=
  fixes.foldl (fun acc f => aset f.1 f.2.2 acc) m

def validate_tunnels (dns : String → Option String) (m : List (String × String)) :
    List (String × String) × Bool :=
  let mismatches := computeMismatches dns m
  if mismatches.isEmpty then (m, true)
  else (applyFixes mismatches m, false)

theorem computeMismatches_eq_nil (dns : String → Option String)
    (m : List (String × String))
    (h : ∀ p ∈ m, dns p.1 = none ∨ dns p.1 = some p.2) :
    computeMismatches dns m = [] := by
  induction m with
  | nil => rfl
  | cons q rest ih =>
    obtain ⟨k1, v1⟩ := q
    have hq := h (k1, v1) (List.mem_cons_self _ _)
    have hrest := ih (fun p hp => h p (List.mem_cons_of_mem _ hp))
    rcases hq with hq | hq <;>
      simp [computeMismatches, List.filterMap_cons, hq] <;>
      simpa [computeMismatches] using hrest

theorem mem_aset_key_eq (k v : String) (l : List (String × String)) :
    (l.map Prod.fst).Nodup → ∀ p ∈ aset k v l, p.1 = k → p.2 = v := by
  induction l with
  | nil =>
    intro _ p hp _
    rw [aset, List.mem_singleton] at hp
    rw [hp]
  | cons q rest ih =>
    obtain ⟨k1, v1⟩ := q
    intro hnd p hp hpk
    rw [List.map_cons, List.nodup_cons] at hnd
    by_cases h1 : k1 = k
    · subst h1
      rw [aset, if_pos rfl, List.mem_cons] at hp
      rcases hp with hp | hp
      · rw [hp]
      · exfalso
        have hm := List.mem_map_of_mem Prod.fst hp
        rw [hpk] at hm
        exact hnd.1 hm
    · rw [aset, if_neg h1, List.mem_cons] at hp
      rcases hp with hp | hp
      · exfalso
        apply h1
        rw [← hpk, hp]
      · exact ih hnd.2 p hp hpk

theorem computeMismatches_single (dns : String → Option String) (f0 t0 d0 : String)
    (hdns : dns f0 = some d0) (hdiff : d0 ≠ t0) :
    ∀ m : List (String × String), (m.map Prod.fst).Nodup → (f0, t0) ∈ m →
      (∀ p ∈ m, p.1 ≠ f0 → dns p.1 = none ∨ dns p.1 = some p.2) →
      computeMismatches dns m = [(f0, t0, d0)] := by
  intro m
  induction m with
  | nil =>
    intro _ hmem _
    simp at hmem
  | cons q rest ih =>
    intro hnd hmem hothers
    obtain ⟨k1, v1⟩ := q
    rw [List.map_cons, List.nodup_cons] at hnd
    by_cases hk : k1 = f0
    · subst hk
      have hv : v1 = t0 := by
        rcases List.mem_cons.1 hmem with h | h
        · exact (Prod.mk.injEq _ _ _ _ ▸ h.symm).2
        · exact absurd (List.mem_map_of_mem Prod.fst h) hnd.1
      subst hv
      have hrestp : ∀ p ∈ rest, dns p.1 = none ∨ dns p.1 = some p.2 := by
        intro p hp
        refine hothers p (List.mem_cons_of_mem _ hp) ?_
        intro hpk
        have hm := List.mem_map_of_mem Prod.fst hp
        rw [hpk] at hm
        exact hnd.1 hm
      have hrest := computeMismatches_eq_nil dns rest hrestp
      simp only [computeMismatches] at hrest ⊢
      simp [List.filterMap_cons, hdns, hdiff, hrest]
    · have hq := hothers (k1, v1) (List.mem_cons_self _ _) hk
      have hmem2 : (f0, t0) ∈ rest := by
        rcases List.mem_cons.1 hmem with h | h
        · exact absurd ((Prod.mk.injEq _ _ _ _ ▸ h).1.symm) hk
        · exact h
      have hrest := ih hnd.2 hmem2 (fun p hp => hothers p (List.mem_cons_of_mem _ hp))
      simp only [computeMismatches] at hrest ⊢
      rcases hq with hq | hq <;> simp [List.filterMap_cons, hq, hrest]

/-! ### `admin_panel.recycle_lowest_cname` (Identity Pool Manager)

The DNS registry's CNAME record names are the `records` parameter.  The regex
`minecraft-(\d{3})\.rileyberycz\.co\.uk` (anchored at the start, per
`re.match`) is `matchNumeric`; the matching `(number, fqdn)` pairs are sorted
(Python tuple order: by number, then name) and the lowest is recycled: its
CNAME is renamed externally (outcome `renameOk`), its entry is popped from the
tunnel map and the tunnel id re-inserted under the preferred label's fqdn.
`none` models the uncaught `KeyError` when the popped fqdn is absent from the
map; the early-return fallbacks (no numeric records, rename failure) leave the
map untouched. -/

def pad3 (n : Nat) : String :=
  if n < 10 then "00" ++ toString n
  else if n < 100 then "0" ++ toString n
  else toString n

def numericFqdn (n : Nat) : String :=
  "minecraft-" ++ pad3 n ++ ".rileyberycz.co.uk"

def listStartsWith : List Char → List Char → Bool
  | _, [] => true
  | [], _ :: _ => false
  | c :: cs, d :: ds => c == d && listStartsWith cs ds

def matchNumeric (s : String) : Option Nat :=
  match s.toList with
  | 'm' :: 'i' :: 'n' :: 'e' :: 'c' :: 'r' :: 'a' :: 'f' :: 't' :: '-' ::
      d1 :: d2 :: d3 :: rest =>
    if d1.isDigit && d2.isDigit && d3.isDigit &&
        listStartsWith rest ".rileyberycz.co.uk".toList then
      some ((d1.toNat - 48) * 100 + (d2.toNat - 48) * 10 + (d3.toNat - 48))
    else none
  | _ => none

def usedNumbers (records : List String) : List (Nat × String) :=
  records.filterMap (fun r => (matchNumeric r).map (fun n => (n, r)))

def tupleLe (a b : Nat × String) : Bool :=
  decide (a.1 < b.1) || (decide (a.1 = b.1) && decide (a.2 ≤ b.2))

def insertSorted (x : Nat × String) : List (Nat × String) → List (Nat × String)
  | [] => [x]
  | y :: ys => if tupleLe x y then x :: y :: ys else y :: insertSorted x ys

def sortTuples : List (Nat × String) → List (Nat × String)
  | [] => []
  | x :: xs => insertSorted x (sortTuples xs)

def selectLowest (records : List String) : Option (Nat × String) :=
  match usedNumbers records with
  | [] => none
  | us => (sortTuples us).head?

def fqdnOf (sub : String) : String := sub ++ ".rileyberycz.co.uk"

def recycle_lowest_cname (records : List String) (renameOk : Bool)
    (m : List (String × String)) (preferred : String) :
    Option (Option String × String × List (String × String)) :=
  match selectLowest records with
  | none => some (none, preferred, m)
  | some (_, oldFqdn) =>
    if renameOk then
      match alookup oldFqdn m with
      | none => none
      | some tid =>
          some (some tid, preferred, aerase oldFqdn m ++ [(fqdnOf preferred, tid)])
    else
      some (none, preferred, m)

/-- The 100 reserved numeric slots `minecraft-001` … `minecraft-100` as fqdns. -/
def validSlots : List String := (List.range 100).map (fun i => numericFqdn (i + 1))

theorem alookup_isSome_of_mem (k : String) (l : List (String × String))
    (h : k ∈ l.map Prod.fst) : ∃ v, alookup k l = some v := by
  induction l with
  | nil => simp at h
  | cons p rest ih =>
    obtain ⟨k1, v1⟩ := p
    by_cases hk : k = k1
    · exact ⟨v1, by rw [alookup, if_pos hk]⟩
    · rw [List.map_cons, List.mem_cons] at h
      rcases h with h | h
      · exact absurd h hk
      · rcases ih h with ⟨v, hv⟩
        exact ⟨v, by rw [alookup, if_neg hk]; exact hv⟩

theorem keys_aerase (k : String) (l : List (String × String)) :
    (aerase k l).map Prod.fst = (l.map Prod.fst).erase k := by
  induction l with
  | nil => rfl
  | cons p rest ih =>
    obtain ⟨k1, v1⟩ := p
    by_cases hk : k1 = k
    · subst hk
      simp [aerase, List.erase_cons]
    · simp [aerase, List.erase_cons, hk, ih]

theorem alookup_aerase_self (k : String) (l : List (String × String))
    (hnd : (l.map Prod.fst).Nodup) : alookup k (aerase k l) = none := by
  apply alookup_eq_none_of_not_mem
  rw [keys_aerase]
  intro hmem
  exact (List.Nodup.mem_erase_iff hnd).1 hmem |>.1 rfl

theorem alookup_append_of_none (k : String) (l1 l2 : List (String × String))
    (h : alookup k l1 = none) : alookup k (l1 ++ l2) = alookup k l2 := by
  induction l1 with
  | nil => rfl
  | cons p rest ih =>
    obtain ⟨k1, v⟩ := p
    by_cases hk : k = k1
    · rw [alookup, if_pos hk] at h
      exact absurd h (by simp)
    · rw [alookup, if_neg hk] at h
      rw [List.cons_append, alookup, if_neg hk]
      exact ih h

theorem alookup_append_of_some (k v : String) (l1 l2 : List (String × String))
    (h : alookup k l1 = some v) : alookup k (l1 ++ l2) = some v := by
  induction l1 with
  | nil => exact absurd h (by simp [alookup])
  | cons p rest ih =>
    obtain ⟨k1, v1⟩ := p
    by_cases hk : k = k1
    · rw [alookup, if_pos hk] at h
      rw [List.cons_append, alookup, if_pos hk]
      exact h
    · rw [alookup, if_neg hk] at h
      rw [List.cons_append, alookup, if_neg hk]
      exact ih h

/-! ### `admin_panel.sanitize_subdomain` and the create-server allocation path

`sanitize_subdomain` lowercases, collapses runs of whitespace/underscores to a
single hyphen, strips characters outside `[a-z0-9-]`, prepends `minecraft-`
and truncates to 63 characters.  `create_server` takes the custom subdomain
when given (else the server name), sanitizes it, and unconditionally calls
`recycle_lowest_cname` with the result — there is no check of any kind against
the reserved numeric labels. -/

def collapseWs (prevWs : Bool) : List Char → List Char
  | [] => []
  | c :: rest =>
    if c.isWhitespace || c == '_' then
      if prevWs then collapseWs true rest else '-' :: collapseWs true rest
    else c :: collapseWs false rest

def sanitize_subdomain (name : String) : String :=
  let hyphened := collapseWs false (name.toList.map Char.toLower)
  let base := hyphened.filter (fun c => c.isLower || c.isDigit || c == '-')
  String.mk (("minecraft-".toList ++ base).take 63)

def create_server_subdomain (server_name custom_subdomain : String) : String :=
  sanitize_subdomain (if custom_subdomain ≠ "" then custom_subdomain else server_name)

def create_server_alloc (records : List String) (renameOk : Bool)
    (m : List (String × String)) (server_name custom_subdomain : String) :
    Option (Option String × String × List (String × String)) :=
  recycle_lowest_cname records renameOk m
    (create_server_subdomain server_name custom_subdomain)

/-- Modelled from the spec's reserved-name rule: the reserved numeric labels
are `minecraft-001` … `minecraft-100`. -/
def isReservedLabel (s : String) : Bool :=
  (List.range 100).any (fun i => s == "minecraft-" ++ pad3 (i + 1))

/-! ### `server_helper.prune_backups` (Backup Manager retention)

The backup directory listing is a list of `(filename, mtime)` pairs.  Files
named `<server_id>-…​.zip` are collected, sorted by modification time newest
first (Python's stable `sort` with `reverse=True`, modelled by a stable
insertion sort), and when more than `keep_count` exist everything past the
first `keep_count` is deleted.  The result pairs the surviving archives with
the deleted ones. -/

def strStartsWith (s p : String) : Bool := listStartsWith s.toList p.toList

def strEndsWith (s p : String) : Bool := listStartsWith s.toList.reverse p.toList.reverse

def matchingBackups (server_id : String) (files : List (String × Nat)) :
    List (String × Nat) :=
  files.filter (fun p => strStartsWith p.1 (server_id ++ "-") && strEndsWith p.1 ".zip")

def insertByMtime (x : String × Nat) : List (String × Nat) → List (String × Nat)
  | [] => [x]
  | y :: ys => if y.2 ≤ x.2 then x :: y :: ys else y :: insertByMtime x ys

def sortByMtimeDesc : List (String × Nat) → List (String × Nat)
  | [] => []
  | x :: xs => insertByMtime x (sortByMtimeDesc xs)

def prune_backups (server_id : String) (keep_count : Nat)
    (files : List (String × Nat)) : List (String × Nat) × List (String × Nat) :=
  let sorted := sortByMtimeDesc (matchingBackups server_id files)
  if keep_count < sorted.length then
    (sorted.take keep_count, sorted.drop keep_count)
  else
    (sorted, [])

theorem insertByMtime_perm (x : String × Nat) (l : List (String × Nat)) :
    List.Perm (insertByMtime x l) (x :: l) := by
  induction l with
  | nil => exact List.Perm.refl [x]
  | cons y ys ih =>
    by_cases h : y.2 ≤ x.2
    · rw [insertByMtime, if_pos h]
    · rw [insertByMtime, if_neg h]
      exact List.Perm.trans (List.Perm.cons y ih) (List.Perm.swap x y ys)

theorem sortByMtimeDesc_perm (l : List (String × Nat)) :
    List.Perm (sortByMtimeDesc l) l := by
  induction l with
  | nil => exact List.Perm.refl []
  | cons x xs ih =>
    rw [sortByMtimeDesc]
    exact List.Perm.trans (insertByMtime_perm x (sortByMtimeDesc xs)) (List.Perm.cons x ih)

theorem insertByMtime_pairwise (x : String × Nat) (l : List (String × Nat))
    (h : l.Pairwise (fun a b => b.2 ≤ a.2)) :
    (insertByMtime x l).Pairwise (fun a b => b.2 ≤ a.2) := by
  induction l with
  | nil => simp [insertByMtime]
  | cons y ys ih =>
    rw [List.pairwise_cons] at h
    by_cases hxy : y.2 ≤ x.2
    · rw [insertByMtime, if_pos hxy, List.pairwise_cons]
      refine ⟨?_, List.pairwise_cons.2 h⟩
      intro z hz
      rcases List.mem_cons.1 hz with hz | hz
      · rw [hz]
        exact hxy
      · exact le_trans (h.1 z hz) hxy
    · rw [insertByMtime, if_neg hxy, List.pairwise_cons]
      refine ⟨?_, ih h.2⟩
      intro z hz
      have hz2 := (insertByMtime_perm x ys).mem_iff.1 hz
      rcases List.mem_cons.1 hz2 with hz2 | hz2
      · rw [hz2]
        exact Nat.le_of_not_le hxy
      · exact h.1 z hz2

theorem sortByMtimeDesc_pairwise (l : List (String × Nat)) :
    (sortByMtimeDesc l).Pairwise (fun a b => b.2 ≤ a.2) := by
  induction l with
  | nil => simp [sortByMtimeDesc]
  | cons x xs ih => exact insertByMtime_pairwise x (sortByMtimeDesc xs) ih

/-! ### The worker's max-runtime branch (`server_helper.py` main polling loop)

Each polling tick computes `runtime_hours = (now - start_time) / 3600` and
fires the branch when `config.get('max_runtime')` is truthy and
`runtime_hours >= max_runtime` — i.e. `max_runtime` is compared in HOURS.
The branch then: backs up (reason `max_runtime`), broadcasts three restart
warnings (60/30/10 seconds, sleeping 30/20/10 s between them), sends `stop`,
marks the server inactive, and restarts the server and tunnel in place.
The `sleepSecs`/`say`/… constructors record the branch's effects in order
(graceful-stop success path). -/

inductive WorkerAction
  | backup (reason : String)
  | say (msg : String)
  | sleepSecs (n : Nat)
  | stop
  | markInactive
  | restart
deriving DecidableEq

def max_runtime_triggered (max_runtime : Nat) (elapsedSecs : Nat) : Bool :=
  decide (max_runtime ≠ 0) && decide (max_runtime ≤ elapsedSecs / 3600)

def max_runtime_actions : List WorkerAction :=
  [WorkerAction.backup "max_runtime",
   WorkerAction.say "Server will restart in 60 seconds due to scheduled maintenance",
   WorkerAction.sleepSecs 30,
   WorkerAction.say "Server will restart in 30 seconds",
   WorkerAction.sleepSecs 20,
   WorkerAction.say "Server will restart in 10 seconds",
   WorkerAction.sleepSecs 10,
   WorkerAction.stop,
   WorkerAction.markInactive,
   WorkerAction.restart]

def isSayAction : WorkerAction → Bool
  | WorkerAction.say _ => true
  | _ => false

/-! ## Theorems -/

theorem append_ne_empty_left (s t : String) (h : s.length ≠ 0) : s ++ t ≠ "" := by
  intro he
  apply h
  have hl := congrArg String.length he
  rw [String.length_append] at hl
  have h0 : String.length "" = 0 := rfl
  omega

/-- Claim C2: for every server config whose `pending_command` field is a
non-empty string, one invocation of `process_pending_command` (the stdin write
succeeding) writes the command to the managed process exactly once, prepending
the prefix character `/` unless the command already starts with `/` or equals
the literal string `stop`, and afterwards the persisted config has
`pending_command` equal to the empty string and `last_command_response` equal
to a non-empty string. -/
theorem command_delivery (c : ServerConfig) (h : c.pending_command ≠ "") :
    (process_pending_command true c).sent =
      [(if c.pending_command.startsWith "/" || c.pending_command == "stop" then
          c.pending_command
        else
          "/" ++ c.pending_command) ++ "\n"] ∧
    (process_pending_command true c).config.pending_command = "" ∧
    (process_pending_command true c).config.last_command_response ≠ "" := by
  refine ⟨?_, ?_, ?_⟩
  · cases ha : c.pending_command.startsWith "/" <;>
      cases hb : c.pending_command == "stop" <;>
      simp [process_pending_command, h, ha, hb]
  · simp [process_pending_command, h]
  · simp only [process_pending_command, if_neg h, if_pos rfl]
    exact append_ne_empty_left "Sent: " c.pending_command (by decide)

theorem command_delivery_witness :
    ({ pending_command := "time set day" } : ServerConfig).pending_command ≠ "" ∧
    ((process_pending_command true { pending_command := "time set day" }).sent =
      [(if ({ pending_command := "time set day" } : ServerConfig).pending_command.startsWith "/"
            || ({ pending_command := "time set day" } : ServerConfig).pending_command == "stop" then
          ({ pending_command := "time set day" } : ServerConfig).pending_command
        else
          "/" ++ ({ pending_command := "time set day" } : ServerConfig).pending_command) ++ "\n"] ∧
    (process_pending_command true { pending_command := "time set day" }).config.pending_command = "" ∧
    (process_pending_command true { pending_command := "time set day" }).config.last_command_response ≠ "") :=
  ⟨by decide, command_delivery { pending_command := "time set day" } (by decide)⟩

/-- Claim C10 (implicit): if writing the pending command to the managed
process's stdin fails, `process_pending_command` persists nothing — the stored
config (in particular `pending_command` and `last_command_response`) is left
exactly as it was, so the command stays queued for the next polling tick; the
clear-and-persist happens only on the success path. -/
theorem command_send_failure_atomic (c : ServerConfig) (h : c.pending_command ≠ "") :
    (process_pending_command false c).config = c ∧
    (process_pending_command false c).config.pending_command = c.pending_command ∧
    (process_pending_command false c).config.last_command_response = c.last_command_response ∧
    (process_pending_command false c).ok = false := by
  simp [process_pending_command, h]

theorem command_send_failure_atomic_witness :
    ({ pending_command := "list", last_command_response := "old" } : ServerConfig).pending_command ≠ "" ∧
    ((process_pending_command false { pending_command := "list", last_command_response := "old" }).config =
      { pending_command := "list", last_command_response := "old" } ∧
    (process_pending_command false { pending_command := "list", last_command_response := "old" }).config.pending_command =
      ({ pending_command := "list", last_command_response := "old" } : ServerConfig).pending_command ∧
    (process_pending_command false { pending_command := "list", last_command_response := "old" }).config.last_command_response =
      ({ pending_command := "list", last_command_response := "old" } : ServerConfig).last_command_response ∧
    (process_pending_command false { pending_command := "list", last_command_response := "old" }).ok = false) :=
  ⟨by decide, command_send_failure_atomic
    { pending_command := "list", last_command_response := "old" } (by decide)⟩

/-- Claim C3: the exit finalizer is idempotent: for every starting config
state, running `ensure_server_inactive` twice leaves `is_active = false` and
`shutdown_request = false` after both calls, and the second call performs no
write at all (`need_update` stays false) and no state change; likewise for the
full `atexit` finalizer `set_server_inactive_on_exit`, whose second call only
re-stamps `last_stopped` (a redundant no-op write) and whose
`ensure_server_inactive` pass writes nothing.  Both functions are total (no
error). -/
theorem finalizer_idempotent (c : ServerConfig) (n1 n2 : Nat) :
    (ensure_server_inactive n1 c).1.is_active = false ∧
    (ensure_server_inactive n1 c).1.shutdown_request = false ∧
    (ensure_server_inactive n2 (ensure_server_inactive n1 c).1).1 =
      (ensure_server_inactive n1 c).1 ∧
    (ensure_server_inactive n2 (ensure_server_inactive n1 c).1).2 = false ∧
    (set_server_inactive_on_exit n1 c).1.is_active = false ∧
    (set_server_inactive_on_exit n1 c).1.shutdown_request = false ∧
    (set_server_inactive_on_exit n2 (set_server_inactive_on_exit n1 c).1).1 =
      { (set_server_inactive_on_exit n1 c).1 with last_stopped := some n2 } ∧
    (set_server_inactive_on_exit n2 (set_server_inactive_on_exit n1 c).1).2 = false := by
  obtain ⟨pc, lcr, ia, sr, ls, lst⟩ := c
  cases ia <;> cases sr <;>
    simp [ensure_server_inactive, set_server_inactive_on_exit, write_status_file]

/-- Claim C4 counterexample: the State Store write path `commit_and_push` never
inspects the outcome of its push, so even in a run where the push is rejected
(`pushRejected = true`) it attempts the push exactly once — there is no
"retry up to a bounded number of attempts greater than one", and no Conflict
value is surfaced (the trace is identical to the successful run's). -/
theorem state_store_no_retry_cex :
    (commit_and_push true ["server_configs/abc123.json"] "Update config").count GitOp.push = 1 ∧
    commit_and_push true ["server_configs/abc123.json"] "Update config" =
      commit_and_push false ["server_configs/abc123.json"] "Update config" := by
  constructor
  · rfl
  · rfl

/-- Claim C4 (amended): for every write through `commit_and_push`, the
operation trace contains exactly one push and exactly one pull-rebase, the
pull-rebase immediately precedes the push at the very end of the trace, and the
trace (hence the absence of any retry or surfaced Conflict) is independent of
whether the push is rejected. -/
theorem state_store_single_push (b : Bool) (files : List String) (msg : String) :
    (commit_and_push b files msg).count GitOp.push = 1 ∧
    (commit_and_push b files msg).count GitOp.pullRebase = 1 ∧
    (∃ pre, commit_and_push b files msg = pre ++ [GitOp.pullRebase, GitOp.push]) ∧
    commit_and_push b files msg = commit_and_push (!b) files msg := by
  refine ⟨?_, ?_, ?_, rfl⟩
  · have hz : (files.map GitOp.add).count GitOp.push = 0 := by
      rw [List.count_eq_zero]
      intro hmem
      rcases List.mem_map.1 hmem with ⟨f, _, hf⟩
      exact GitOp.noConfusion hf
    simp [commit_and_push, List.count_append, hz]
  · have hz : (files.map GitOp.add).count GitOp.pullRebase = 0 := by
      rw [List.count_eq_zero]
      intro hmem
      rcases List.mem_map.1 hmem with ⟨f, _, hf⟩
      exact GitOp.noConfusion hf
    simp [commit_and_push, List.count_append, hz]
  · exact ⟨[GitOp.configName, GitOp.configEmail] ++ files.map GitOp.add ++ [GitOp.commit msg],
      by simp [commit_and_push]⟩

/-- Claim C5 counterexample: with a command already pending
(`pending_command = "stop"`), the send-command route does not reject with a
"command already pending" error — it accepts and overwrites `pending_command`
with the new command. -/
theorem send_command_overwrites_cex :
    send_command "list" { pending_command := "stop" } =
      SendCommandResult.accepted { pending_command := "list" } ∧
    ({ pending_command := "stop" } : ServerConfig).pending_command ≠ "" := by
  constructor
  · rfl
  · decide

/-- Claim C5 (amended): the send-command operation rejects only a command that
is empty after stripping; for every non-empty command it unconditionally
overwrites the stored `pending_command` — even when a command is already
pending — leaving all other fields unchanged. -/
theorem send_command_sets_unconditionally (command : String) (c : ServerConfig)
    (h : pyStrip command ≠ "") :
    send_command command c =
      SendCommandResult.accepted { c with pending_command := pyStrip command } := by
  simp [send_command, h]

/-- Claim C1: for every pool mapping in which all 100 numeric slots are
claimed (the DNS records list the slots `minecraft-001 … minecraft-100` and
the map's keys are exactly those fqdns, in any order), allocating a new
preferred label via `recycle_lowest_cname` renames exactly the slot whose
numeric label sorts lowest (`minecraft-001`): the old fqdn key disappears, the
preferred label's fqdn is bound to that slot's unchanged tunnel id, every one
of the other 99 fqdn-to-tunnel-id entries is unchanged, and the key list
changes only by that one rename. -/
theorem recycling_correctness (m : List (String × String)) (preferred : String)
    (hkeys : List.Perm (m.map Prod.fst) validSlots)
    (hpref : fqdnOf preferred ∉ validSlots) :
    ∃ t newMap,
      alookup "minecraft-001.rileyberycz.co.uk" m = some t ∧
      recycle_lowest_cname validSlots true m preferred =
        some (some t, preferred, newMap) ∧
      alookup (fqdnOf preferred) newMap = some t ∧
      alookup "minecraft-001.rileyberycz.co.uk" newMap = none ∧
      (∀ k, k ≠ "minecraft-001.rileyberycz.co.uk" → k ≠ fqdnOf preferred →
        alookup k newMap = alookup k m) ∧
      newMap.map Prod.fst =
        (m.map Prod.fst).erase "minecraft-001.rileyberycz.co.uk" ++ [fqdnOf preferred] := by
  have hsel : selectLowest validSlots = some (1, "minecraft-001.rileyberycz.co.uk") := by
    decide
  have hvn : validSlots.Nodup := by decide
  have hs1 : "minecraft-001.rileyberycz.co.uk" ∈ validSlots := by decide
  have hnd : (m.map Prod.fst).Nodup := hkeys.nodup_iff.2 hvn
  have hmem : "minecraft-001.rileyberycz.co.uk" ∈ m.map Prod.fst := hkeys.mem_iff.2 hs1
  rcases alookup_isSome_of_mem _ m hmem with ⟨t, ht⟩
  have hne : "minecraft-001.rileyberycz.co.uk" ≠ fqdnOf preferred := by
    intro he
    exact hpref (he ▸ hs1)
  have hprefm : fqdnOf preferred ∉ m.map Prod.fst := fun hm => hpref (hkeys.mem_iff.1 hm)
  refine ⟨t, aerase "minecraft-001.rileyberycz.co.uk" m ++ [(fqdnOf preferred, t)],
    ht, ?_, ?_, ?_, ?_, ?_⟩
  · simp [recycle_lowest_cname, hsel, ht]
  · have h1 : alookup (fqdnOf preferred) (aerase "minecraft-001.rileyberycz.co.uk" m) = none := by
      apply alookup_eq_none_of_not_mem
      rw [keys_aerase]
      intro hmem2
      exact hprefm (List.mem_of_mem_erase hmem2)
    rw [alookup_append_of_none _ _ _ h1]
    simp [alookup]
  · have h1 : alookup "minecraft-001.rileyberycz.co.uk"
        (aerase "minecraft-001.rileyberycz.co.uk" m) = none :=
      alookup_aerase_self _ m hnd
    rw [alookup_append_of_none _ _ _ h1]
    simp [alookup, hne]
  · intro k hk1 hkp
    cases h : alookup k (aerase "minecraft-001.rileyberycz.co.uk" m) with
    | none =>
      rw [alookup_append_of_none _ _ _ h, ← alookup_aerase_ne k _ m hk1, h]
      simp [alookup, hkp]
    | some v =>
      rw [alookup_append_of_some _ _ _ _ h, ← alookup_aerase_ne k _ m hk1, h]
  · rw [List.map_append, keys_aerase]
    rfl

def wMapC1 : List (String × String) := validSlots.map (fun s => (s, "tid-" ++ s))

theorem wMapC1_keys : wMapC1.map Prod.fst = validSlots := by decide

theorem wMapC1_keys_perm : List.Perm (wMapC1.map Prod.fst) validSlots := by
  rw [wMapC1_keys]

theorem recycling_correctness_witness :
    (List.Perm (wMapC1.map Prod.fst) validSlots ∧
      fqdnOf "minecraft-skyblock" ∉ validSlots) ∧
    (∃ t newMap,
      alookup "minecraft-001.rileyberycz.co.uk" wMapC1 = some t ∧
      recycle_lowest_cname validSlots true wMapC1 "minecraft-skyblock" =
        some (some t, "minecraft-skyblock", newMap) ∧
      alookup (fqdnOf "minecraft-skyblock") newMap = some t ∧
      alookup "minecraft-001.rileyberycz.co.uk" newMap = none ∧
      (∀ k, k ≠ "minecraft-001.rileyberycz.co.uk" → k ≠ fqdnOf "minecraft-skyblock" →
        alookup k newMap = alookup k wMapC1) ∧
      newMap.map Prod.fst =
        (wMapC1.map Prod.fst).erase "minecraft-001.rileyberycz.co.uk" ++
          [fqdnOf "minecraft-skyblock"]) :=
  ⟨⟨wMapC1_keys_perm, by decide⟩,
    recycling_correctness wMapC1 "minecraft-skyblock" wMapC1_keys_perm (by decide)⟩

/-- Claim C6: for a tunnel mapping containing exactly one entry whose recorded
tunnel id differs from the one observed in DNS (every other entry either
resolves to its recorded value or fails to resolve), one `validate_tunnels`
pass with auto-fix enabled overwrites exactly that entry with the DNS-observed
value — its lookup becomes the DNS value, every other key's lookup is
unchanged, and the key set is unchanged — and a second consecutive pass with
the same DNS state makes zero changes and reports success. -/
theorem reconciliation_convergence (dns : String → Option String)
    (m : List (String × String)) (f0 t0 d0 : String)
    (hnd : (m.map Prod.fst).Nodup)
    (hmem : (f0, t0) ∈ m)
    (hdns : dns f0 = some d0)
    (hdiff : d0 ≠ t0)
    (hothers : ∀ p ∈ m, p.1 ≠ f0 → dns p.1 = none ∨ dns p.1 = some p.2) :
    (validate_tunnels dns m).1 = aset f0 d0 m ∧
    alookup f0 (validate_tunnels dns m).1 = some d0 ∧
    (∀ k, k ≠ f0 → alookup k (validate_tunnels dns m).1 = alookup k m) ∧
    (validate_tunnels dns m).1.map Prod.fst = m.map Prod.fst ∧
    validate_tunnels dns (validate_tunnels dns m).1 = ((validate_tunnels dns m).1, true) := by
  have hsingle := computeMismatches_single dns f0 t0 d0 hdns hdiff m hnd hmem hothers
  have hpass1 : (validate_tunnels dns m).1 = aset f0 d0 m := by
    simp [validate_tunnels, hsingle, applyFixes]
  refine ⟨hpass1, ?_, ?_, ?_, ?_⟩
  · rw [hpass1]
    exact alookup_aset_self f0 d0 m
  · intro k hk
    rw [hpass1]
    exact alookup_aset_ne k f0 d0 m hk
  · rw [hpass1]
    exact keys_aset_of_mem f0 d0 m (List.mem_map_of_mem Prod.fst hmem)
  · have hfixed : ∀ p ∈ aset f0 d0 m, dns p.1 = none ∨ dns p.1 = some p.2 := by
      intro p hp
      rcases mem_aset f0 d0 m p hp with h | h
      · rw [h.1, h.2, hdns]
        exact Or.inr rfl
      · by_cases hpk : p.1 = f0
        · have hval := mem_aset_key_eq f0 d0 m hnd p hp hpk
          rw [hpk, hval, hdns]
          exact Or.inr rfl
        · exact hothers p h hpk
    have hnil := computeMismatches_eq_nil dns (aset f0 d0 m) hfixed
    rw [hpass1]
    simp [validate_tunnels, hnil]

def wMapC6 : List (String × String) :=
  [("minecraft-001.rileyberycz.co.uk", "tid-a"),
   ("minecraft-002.rileyberycz.co.uk", "tid-b"),
   ("minecraft-003.rileyberycz.co.uk", "tid-c")]

def wDnsC6 : String → Option String := fun f =>
  if f = "minecraft-001.rileyberycz.co.uk" then some "tid-a"
  else if f = "minecraft-002.rileyberycz.co.uk" then some "tid-x"
  else none

theorem reconciliation_convergence_witness :
    ((wMapC6.map Prod.fst).Nodup ∧
     ("minecraft-002.rileyberycz.co.uk", "tid-b") ∈ wMapC6 ∧
     wDnsC6 "minecraft-002.rileyberycz.co.uk" = some "tid-x" ∧
     "tid-x" ≠ "tid-b" ∧
     (∀ p ∈ wMapC6, p.1 ≠ "minecraft-002.rileyberycz.co.uk" →
        wDnsC6 p.1 = none ∨ wDnsC6 p.1 = some p.2)) ∧
    ((validate_tunnels wDnsC6 wMapC6).1 =
        aset "minecraft-002.rileyberycz.co.uk" "tid-x" wMapC6 ∧
     alookup "minecraft-002.rileyberycz.co.uk" (validate_tunnels wDnsC6 wMapC6).1 =
        some "tid-x" ∧
     (∀ k, k ≠ "minecraft-002.rileyberycz.co.uk" →
        alookup k (validate_tunnels wDnsC6 wMapC6).1 = alookup k wMapC6) ∧
     (validate_tunnels wDnsC6 wMapC6).1.map Prod.fst = wMapC6.map Prod.fst ∧
     validate_tunnels wDnsC6 (validate_tunnels wDnsC6 wMapC6).1 =
        ((validate_tunnels wDnsC6 wMapC6).1, true)) :=
  ⟨⟨by decide, by decide, by decide, by decide, by decide⟩,
    reconciliation_convergence wDnsC6 wMapC6
      "minecraft-002.rileyberycz.co.uk" "tid-b" "tid-x"
      (by decide) (by decide) (by decide) (by decide) (by decide)⟩

theorem recycle_allocates (m : List (String × String)) (preferred : String)
    (hkeys : List.Perm (m.map Prod.fst) validSlots) :
    ∃ t newMap,
      recycle_lowest_cname validSlots true m preferred =
        some (some t, preferred, newMap) := by
  have hsel : selectLowest validSlots = some (1, "minecraft-001.rileyberycz.co.uk") := by
    decide
  have hs1 : "minecraft-001.rileyberycz.co.uk" ∈ validSlots := by decide
  rcases alookup_isSome_of_mem _ m (hkeys.mem_iff.2 hs1) with ⟨t, ht⟩
  exact ⟨t, aerase "minecraft-001.rileyberycz.co.uk" m ++ [(fqdnOf preferred, t)],
    by simp [recycle_lowest_cname, hsel, ht]⟩

/-- Claim C7 counterexample: the user-supplied name "001" sanitizes to the
reserved numeric label `minecraft-001`, and the create-server allocation path
does not reject it — with the full pool claimed it proceeds and claims the
recycled slot under exactly that reserved label. -/
theorem reserved_name_not_rejected_cex :
    create_server_subdomain "001" "" = "minecraft-001" ∧
    isReservedLabel (create_server_subdomain "001" "") = true ∧
    create_server_alloc validSlots true wMapC1 "001" "" =
      some (some "tid-minecraft-001.rileyberycz.co.uk", "minecraft-001",
        wMapC1.tail ++
          [("minecraft-001.rileyberycz.co.uk",
            "tid-minecraft-001.rileyberycz.co.uk")]) := by
  refine ⟨by decide, by decide, by decide⟩

/-- Claim C7 (amended): user-supplied names whose sanitized form collides with
the reserved numeric pattern are NOT rejected at allocation time: whenever the
full pool is claimed and the sanitized name is a reserved label, the
allocation path still proceeds and claims a pool slot under exactly that
reserved numeric label. -/
theorem reserved_name_accepted (m : List (String × String)) (name custom : String)
    (hkeys : List.Perm (m.map Prod.fst) validSlots)
    (hres : isReservedLabel (create_server_subdomain name custom) = true) :
    ∃ t newMap,
      create_server_alloc validSlots true m name custom =
        some (some t, create_server_subdomain name custom, newMap) := by
  rcases recycle_allocates m (create_server_subdomain name custom) hkeys with ⟨t, nm, h⟩
  exact ⟨t, nm, h⟩

theorem reserved_name_accepted_witness :
    (List.Perm (wMapC1.map Prod.fst) validSlots ∧
      isReservedLabel (create_server_subdomain "001" "") = true) ∧
    (∃ t newMap,
      create_server_alloc validSlots true wMapC1 "001" "" =
        some (some t, create_server_subdomain "001" "", newMap)) :=
  ⟨⟨wMapC1_keys_perm, by decide⟩,
    reserved_name_accepted wMapC1 "001" "" wMapC1_keys_perm (by decide)⟩

/-- Claim C8: for a server with retention `keep` and a backup directory
holding more than `keep` matching archives (with pairwise distinct
modification times), one invocation of `prune_backups` leaves exactly `keep`
archives; the survivors plus the deleted archives are exactly the original
matching archives, and every survivor is strictly more recent than every
deleted archive — i.e. the survivors are precisely the `keep` most recently
created archives for that server. -/
theorem backup_retention (server_id : String) (keep : Nat) (files : List (String × Nat))
    (hcount : keep < (matchingBackups server_id files).length)
    (hdistinct : (matchingBackups server_id files).Pairwise (fun a b => a.2 ≠ b.2)) :
    (prune_backups server_id keep files).1.length = keep ∧
    List.Perm
      ((prune_backups server_id keep files).1 ++ (prune_backups server_id keep files).2)
      (matchingBackups server_id files) ∧
    ∀ s ∈ (prune_backups server_id keep files).1,
      ∀ d ∈ (prune_backups server_id keep files).2, d.2 < s.2 := by
  have hperm := sortByMtimeDesc_perm (matchingBackups server_id files)
  have hlt : keep < (sortByMtimeDesc (matchingBackups server_id files)).length := by
    rw [hperm.length_eq]
    exact hcount
  have hprune : prune_backups server_id keep files =
      ((sortByMtimeDesc (matchingBackups server_id files)).take keep,
       (sortByMtimeDesc (matchingBackups server_id files)).drop keep) := by
    simp only [prune_backups, if_pos hlt]
  have hsplit := List.take_append_drop keep (sortByMtimeDesc (matchingBackups server_id files))
  refine ⟨?_, ?_, ?_⟩
  · rw [hprune]
    simp only [List.length_take]
    exact Nat.min_eq_left (Nat.le_of_lt hlt)
  · rw [hprune]
    simp only
    rw [hsplit]
    exact hperm
  · have hge := sortByMtimeDesc_pairwise (matchingBackups server_id files)
    have hne := (hperm.pairwise_iff (fun h => Ne.symm h)).2 hdistinct
    rw [← hsplit] at hge hne
    have hge3 := (List.pairwise_append.1 hge).2.2
    have hne3 := (List.pairwise_append.1 hne).2.2
    rw [hprune]
    intro s hs d hd
    exact Nat.lt_of_le_of_ne (hge3 s hs d hd) (fun he => hne3 s hs d hd he.symm)

def wFilesC8 : List (String × Nat) :=
  [("abc-20250101.zip", 10), ("abc-20250102.zip", 30), ("abc-20250103.zip", 20),
   ("abc-notes.txt", 99), ("abc-20250104.zip", 40), ("other-1.zip", 50)]

theorem backup_retention_witness :
    (2 < (matchingBackups "abc" wFilesC8).length ∧
     (matchingBackups "abc" wFilesC8).Pairwise (fun a b => a.2 ≠ b.2)) ∧
    ((prune_backups "abc" 2 wFilesC8).1.length = 2 ∧
     List.Perm
       ((prune_backups "abc" 2 wFilesC8).1 ++ (prune_backups "abc" 2 wFilesC8).2)
       (matchingBackups "abc" wFilesC8) ∧
     ∀ s ∈ (prune_backups "abc" 2 wFilesC8).1,
       ∀ d ∈ (prune_backups "abc" 2 wFilesC8).2, d.2 < s.2) :=
  ⟨⟨by decide, by decide⟩, backup_retention "abc" 2 wFilesC8 (by decide) (by decide)⟩

/-- Claim C9 counterexample: with `max_runtime = 45` the worker's max-runtime
branch does nothing at 15 or 45 minutes of elapsed runtime (it compares
`max_runtime` in HOURS, firing only from 45 h = 162000 s on); and when the
branch does fire it starts with the backup, and its only broadcasts are the
three 60/30/10-SECOND restart warnings — there are no 30/15/5/1-minute
warnings and no 10-step per-second countdown. -/
theorem max_runtime_schedule_cex :
    max_runtime_triggered 45 900 = false ∧
    max_runtime_triggered 45 2700 = false ∧
    max_runtime_triggered 45 162000 = true ∧
    max_runtime_actions.head? = some (WorkerAction.backup "max_runtime") ∧
    max_runtime_actions.filter isSayAction =
      [WorkerAction.say "Server will restart in 60 seconds due to scheduled maintenance",
       WorkerAction.say "Server will restart in 30 seconds",
       WorkerAction.say "Server will restart in 10 seconds"] := by
  refine ⟨rfl, rfl, rfl, rfl, rfl⟩

/-- Claim C9 (amended): `max_runtime` is interpreted in hours — the branch
fires exactly when `max_runtime` is nonzero and `max_runtime * 3600 ≤` the
elapsed seconds; on firing the worker first takes a `max_runtime` backup, then
sends exactly three restart broadcasts (60/30/10 seconds), then issues the
stop command, marks the server inactive and restarts in place. -/
theorem max_runtime_schedule (m e : Nat) :
    (max_runtime_triggered m e = true ↔ m ≠ 0 ∧ m * 3600 ≤ e) ∧
    max_runtime_actions.head? = some (WorkerAction.backup "max_runtime") ∧
    max_runtime_actions.filter isSayAction =
      [WorkerAction.say "Server will restart in 60 seconds due to scheduled maintenance",
       WorkerAction.say "Server will restart in 30 seconds",
       WorkerAction.say "Server will restart in 10 seconds"] ∧
    max_runtime_actions.drop 7 =
      [WorkerAction.stop, WorkerAction.markInactive, WorkerAction.restart] := by
  refine ⟨?_, rfl, rfl, rfl⟩
  rw [max_runtime_triggered, Bool.and_eq_true, decide_eq_true_iff, decide_eq_true_iff]
  have h3600 : 0 < 3600 := by norm_num
  constructor
  · rintro ⟨h1, h2⟩
    exact ⟨h1, (Nat.le_div_iff_mul_le h3600).1 h2⟩
  · rintro ⟨h1, h2⟩
    exact ⟨h1, (Nat.le_div_iff_mul_le h3600).2 h2⟩

theorem send_command_sets_unconditionally_witness :
    pyStrip "  list " ≠ "" ∧
    send_command "  list " { pending_command := "stop" } =
      SendCommandResult.accepted
        { ({ pending_command := "stop" } : ServerConfig) with pending_command := pyStrip "  list " } :=
  ⟨by decide, send_command_sets_unconditionally "  list " { pending_command := "stop" } (by decide)⟩

end MCServer
